import Mathlib

/-!
Verification of the AgreementManagerHelper coordination layer: deterministic
offer-id derivation (keccak over a tagged ABI encoding), EIP-712 digest
construction, signature round-trips, the offer/dispute status machine, and
the client-side conveniences around them.  The keccak-256 hash and the
elliptic-curve signature scheme are external cryptographic dependencies and
are modelled as parameters; every statement that would need collision
resistance instead produces, from a putative violation, two concrete byte
strings on which the hash parameter collides.
-/

namespace AgreementKit

/-- Big-endian byte encoding of the low `w` bytes of `n`, exactly `w` bytes
long (higher bytes of `n` are truncated, as ABI encoding of an in-range
value never relies on them). -/
def beBytes : Nat → Nat → List Nat
  | 0, _ => []
  | w + 1, n => beBytes w (n / 256) ++ [n % 256]

/-- One word of the 2^256 modulus used for all 32-byte quantities. -/
def M256 : Nat := 2 ^ 256

theorem M256_eq_pow : M256 = 256 ^ 32 := by norm_num [M256]

theorem M256_pos : 0 < M256 := by norm_num [M256]

theorem beBytes_length (w n : Nat) : (beBytes w n).length = w := by
  induction w generalizing n with
  | zero => simp [beBytes]
  | succ w ih => simp [beBytes, ih]

theorem foldl_beBytes (w : Nat) : ∀ n acc : Nat,
    (beBytes w n).foldl (fun a b => a * 256 + b) acc = acc * 256 ^ w + n % 256 ^ w := by
  induction w with
  | zero => intro n acc; simp [beBytes, Nat.mod_one]
  | succ w ih =>
    intro n acc
    have hmod : n % 256 ^ (w + 1) = n % 256 + 256 * (n / 256 % 256 ^ w) := by
      rw [pow_succ, mul_comm (256 ^ w) 256, Nat.mod_mul]
    simp only [beBytes, List.foldl_append, List.foldl_cons, List.foldl_nil, ih]
    rw [hmod, pow_succ]
    ring

theorem beBytes_inj {w n m : Nat} (hn : n < 256 ^ w) (hm : m < 256 ^ w)
    (h : beBytes w n = beBytes w m) : n = m := by
  have h1 := foldl_beBytes w n 0
  have h2 := foldl_beBytes w m 0
  rw [h] at h1
  rw [h2, Nat.zero_mul, Nat.zero_add, Nat.zero_add, Nat.mod_eq_of_lt hn,
    Nat.mod_eq_of_lt hm] at h1
  exact h1.symm

theorem beBytes_mem_lt {w n b : Nat} (hb : b ∈ beBytes w n) : b < 256 := by
  induction w generalizing n with
  | zero => simp [beBytes] at hb
  | succ w ih =>
    simp only [beBytes, List.mem_append, List.mem_singleton] at hb
    rcases hb with hb | hb
    · exact ih hb
    · subst hb; exact Nat.mod_lt _ (by norm_num)

/-- A list of naturals that are genuine bytes (each below 256). -/
def IsBytes (l : List Nat) : Prop := ∀ b ∈ l, b < 256

instance (l : List Nat) : Decidable (IsBytes l) :=
  inferInstanceAs (Decidable (∀ b ∈ l, b < 256))

theorem beBytes_isBytes (w n : Nat) : IsBytes (beBytes w n) :=
  fun _ hb => beBytes_mem_lt hb

/-- Two distinct byte strings the 32-byte-truncated hash `k` does not keep
apart.  All claims that informally assume collision resistance of keccak-256
are stated so that a violation exhibits such a pair. -/
def HashCollision (k : List Nat → Nat) : Prop :=
  ∃ l1 l2 : List Nat,
    IsBytes l1 ∧ IsBytes l2 ∧ l1 ≠ l2 ∧ k l1 % M256 = k l2 % M256

/-- The four elementary ABI head types `computeOfferId` feeds to
`ethers.AbiCoder.defaultAbiCoder().encode`. -/
inductive AbiTy
  | bytes1
  | address
  | uint256
  | bytes32
deriving DecidableEq, Repr

/-- One 32-byte ABI word: `bytes1` is the value byte left-aligned then
zero-padded, `address` is 12 zero bytes then the 20 address bytes, and
`uint256`/`bytes32` are full-width big-endian. -/
def abiWord : AbiTy → Nat → List Nat
  | AbiTy.bytes1, v => (v % 256) :: List.replicate 31 0
  | AbiTy.address, v => List.replicate 12 0 ++ beBytes 20 v
  | AbiTy.uint256, v => beBytes 32 v
  | AbiTy.bytes32, v => beBytes 32 v

/-- Head-only ABI encoding of a list of typed words (all the types used by
the helper are static 32-byte words, so the encoding is their
concatenation). -/
def abiEncode (ps : List (AbiTy × Nat)) : List Nat :=
  (ps.map (fun p => abiWord p.1 p.2)).flatten

theorem abiWord_length (t : AbiTy) (v : Nat) : (abiWord t v).length = 32 := by
  cases t <;> simp [abiWord, beBytes_length]

theorem abiWord_isBytes (t : AbiTy) (v : Nat) : IsBytes (abiWord t v) := by
  cases t <;> intro b hb <;>
    simp only [abiWord, List.mem_cons, List.mem_append, List.mem_replicate] at hb
  · rcases hb with hb | hb
    · subst hb; exact Nat.mod_lt _ (by norm_num)
    · omega
  · rcases hb with hb | hb
    · omega
    · exact beBytes_mem_lt hb
  · exact beBytes_mem_lt hb
  · exact beBytes_mem_lt hb

theorem abiEncode_nil : abiEncode [] = [] := rfl

theorem abiEncode_cons (p : AbiTy × Nat) (ps : List (AbiTy × Nat)) :
    abiEncode (p :: ps) = abiWord p.1 p.2 ++ abiEncode ps := by
  simp [abiEncode]

theorem abiEncode_length (ps : List (AbiTy × Nat)) :
    (abiEncode ps).length = 32 * ps.length := by
  induction ps with
  | nil => simp [abiEncode]
  | cons p ps ih =>
    rw [abiEncode_cons]
    simp [ih, abiWord_length, Nat.mul_succ, Nat.add_comm]

theorem abiEncode_isBytes (ps : List (AbiTy × Nat)) : IsBytes (abiEncode ps) := by
  induction ps with
  | nil => intro b hb; simp [abiEncode] at hb
  | cons p ps ih =>
    intro b hb
    rw [abiEncode_cons] at hb
    rcases List.mem_append.mp hb with hb | hb
    · exact abiWord_isBytes p.1 p.2 b hb
    · exact ih b hb

/-- Peels one fixed-width segment off an equality of concatenated buffers. -/
theorem chopSeg {a b x y : List Nat} (hab : a.length = b.length)
    (h : a ++ x = b ++ y) : a = b ∧ x = y :=
  List.append_inj h hab

theorem abiWord_address_inj {a b : Nat} (ha : a < 2 ^ 160) (hb : b < 2 ^ 160)
    (h : abiWord AbiTy.address a = abiWord AbiTy.address b) : a = b := by
  have h160 : (2 : Nat) ^ 160 = 256 ^ 20 := by norm_num
  simp only [abiWord] at h
  have := (chopSeg rfl h).2
  exact beBytes_inj (h160 ▸ ha) (h160 ▸ hb) this

theorem abiWord_u256_inj {a b : Nat} (ha : a < M256) (hb : b < M256)
    (h : abiWord AbiTy.uint256 a = abiWord AbiTy.uint256 b) : a = b := by
  simp only [abiWord] at h
  exact beBytes_inj (M256_eq_pow ▸ ha) (M256_eq_pow ▸ hb) h

theorem abiWord_b32_inj {a b : Nat} (ha : a < M256) (hb : b < M256)
    (h : abiWord AbiTy.bytes32 a = abiWord AbiTy.bytes32 b) : a = b := by
  simp only [abiWord] at h
  exact beBytes_inj (M256_eq_pow ▸ ha) (M256_eq_pow ▸ hb) h

/-- The twelve canonical offer fields from which the deterministic id is
derived (mirrors the argument record of `computeOfferId`; the document URI
is carried as its UTF-8 bytes). -/
structure OfferIdFields where
  issuer : Nat
  investor : Nat
  tokenAddress : Nat
  partition : Nat
  tokenId : Nat
  amount : Nat
  classId : Nat
  nonceId : Nat
  documentHash : Nat
  documentURI : List Nat
  expiry : Nat
  nonce : Nat
deriving DecidableEq, Repr

/-- Well-formed field values: addresses fit 20 bytes, scalars fit 32 bytes,
and the URI is a byte string. -/
def ValidOfferIdFields (x : OfferIdFields) : Prop :=
  x.issuer < 2 ^ 160 ∧ x.investor < 2 ^ 160 ∧ x.tokenAddress < 2 ^ 160 ∧
  x.partition < M256 ∧ x.tokenId < M256 ∧ x.amount < M256 ∧
  x.classId < M256 ∧ x.nonceId < M256 ∧ x.documentHash < M256 ∧
  x.expiry < M256 ∧ x.nonce < M256 ∧ IsBytes x.documentURI

instance (x : OfferIdFields) : Decidable (ValidOfferIdFields x) := by
  unfold ValidOfferIdFields; infer_instance

/-- The buffer hashed by `computeOfferId`: the ABI encoding of the
byte-tagged addresses followed by the fixed-width scalar fields, with the
document URI contributing only through the hash of its bytes — transcribing
the `coder.encode` call of `AgreementManagerHelper.computeOfferId`. -/
def offerIdEncoding (k : List Nat → Nat) (x : OfferIdFields) : List Nat :=
  abiEncode
    [ (AbiTy.bytes1, 1), (AbiTy.address, x.issuer),
      (AbiTy.bytes1, 2), (AbiTy.address, x.investor),
      (AbiTy.bytes1, 3), (AbiTy.address, x.tokenAddress),
      (AbiTy.bytes32, x.partition), (AbiTy.uint256, x.tokenId),
      (AbiTy.uint256, x.amount), (AbiTy.uint256, x.classId),
      (AbiTy.uint256, x.nonceId), (AbiTy.bytes32, x.documentHash),
      (AbiTy.bytes32, k x.documentURI % M256),
      (AbiTy.uint256, x.expiry), (AbiTy.uint256, x.nonce) ]

/-- Deterministic offer id: the 32-byte hash of `offerIdEncoding`, exactly
as `AgreementManagerHelper.computeOfferId` computes
`ethers.keccak256(encoded)`. -/
def computeOfferId (k : List Nat → Nat) (x : OfferIdFields) : Nat :=
  k (offerIdEncoding k x) % M256

theorem offerIdEncoding_isBytes (k : List Nat → Nat) (x : OfferIdFields) :
    IsBytes (offerIdEncoding k x) :=
  abiEncode_isBytes _

theorem offerIdEncoding_inj (k : List Nat → Nat) {x y : OfferIdFields}
    (hx : ValidOfferIdFields x) (hy : ValidOfferIdFields y)
    (h : offerIdEncoding k x = offerIdEncoding k y) :
    x = y ∨ (x.documentURI ≠ y.documentURI ∧
      k x.documentURI % M256 = k y.documentURI % M256) := by
  obtain ⟨hx1, hx2, hx3, hx4, hx5, hx6, hx7, hx8, hx9, hx10, hx11, -⟩ := hx
  obtain ⟨hy1, hy2, hy3, hy4, hy5, hy6, hy7, hy8, hy9, hy10, hy11, -⟩ := hy
  simp only [offerIdEncoding, abiEncode_cons, abiEncode_nil, List.append_nil] at h
  obtain ⟨-, h⟩ := chopSeg (by simp [abiWord_length]) h
  obtain ⟨hIss, h⟩ := chopSeg (by simp [abiWord_length]) h
  obtain ⟨-, h⟩ := chopSeg (by simp [abiWord_length]) h
  obtain ⟨hInv, h⟩ := chopSeg (by simp [abiWord_length]) h
  obtain ⟨-, h⟩ := chopSeg (by simp [abiWord_length]) h
  obtain ⟨hTok, h⟩ := chopSeg (by simp [abiWord_length]) h
  obtain ⟨hPar, h⟩ := chopSeg (by simp [abiWord_length]) h
  obtain ⟨hTid, h⟩ := chopSeg (by simp [abiWord_length]) h
  obtain ⟨hAmt, h⟩ := chopSeg (by simp [abiWord_length]) h
  obtain ⟨hCls, h⟩ := chopSeg (by simp [abiWord_length]) h
  obtain ⟨hNid, h⟩ := chopSeg (by simp [abiWord_length]) h
  obtain ⟨hDoc, h⟩ := chopSeg (by simp [abiWord_length]) h
  obtain ⟨hUri, h⟩ := chopSeg (by simp [abiWord_length]) h
  obtain ⟨hExp, hNon⟩ := chopSeg (by simp [abiWord_length]) h
  have eUri := abiWord_b32_inj (Nat.mod_lt _ M256_pos) (Nat.mod_lt _ M256_pos) hUri
  by_cases hu : x.documentURI = y.documentURI
  · left
    have e1 := abiWord_address_inj hx1 hy1 hIss
    have e2 := abiWord_address_inj hx2 hy2 hInv
    have e3 := abiWord_address_inj hx3 hy3 hTok
    have e4 := abiWord_b32_inj hx4 hy4 hPar
    have e5 := abiWord_u256_inj hx5 hy5 hTid
    have e6 := abiWord_u256_inj hx6 hy6 hAmt
    have e7 := abiWord_u256_inj hx7 hy7 hCls
    have e8 := abiWord_u256_inj hx8 hy8 hNid
    have e9 := abiWord_b32_inj hx9 hy9 hDoc
    have e10 := abiWord_u256_inj hx10 hy10 hExp
    have e11 := abiWord_u256_inj hx11 hy11 hNon
    cases x; cases y
    simp_all
  · exact Or.inr ⟨hu, eUri⟩

/-- Claim C1: `computeOfferId` is a pure deterministic function of the
twelve offer fields — its value is below 2^256 (a 32-byte id), identical
fields give an identical id, and two valid field sets that differ anywhere
can only share an id by exhibiting a concrete collision of the underlying
32-byte hash (the spec assumes collision resistance of keccak-256, so this
is the claim's content for an honest hash). -/
theorem computeOfferId_deterministic_injective (k : List Nat → Nat)
    (x y : OfferIdFields) (hx : ValidOfferIdFields x) (hy : ValidOfferIdFields y) :
    computeOfferId k x < M256 ∧
    (x = y → computeOfferId k x = computeOfferId k y) ∧
    (x ≠ y → computeOfferId k x = computeOfferId k y → HashCollision k) := by
  refine ⟨Nat.mod_lt _ M256_pos, fun h => by rw [h], fun hne hid => ?_⟩
  simp only [computeOfferId] at hid
  by_cases henc : offerIdEncoding k x = offerIdEncoding k y
  · rcases offerIdEncoding_inj k hx hy henc with h | ⟨hu, hcol⟩
    · exact absurd h hne
    · exact ⟨x.documentURI, y.documentURI, hx.2.2.2.2.2.2.2.2.2.2.2,
        hy.2.2.2.2.2.2.2.2.2.2.2, hu, hcol⟩
  · exact ⟨offerIdEncoding k x, offerIdEncoding k y, offerIdEncoding_isBytes k x,
      offerIdEncoding_isBytes k y, henc, hid⟩

/-- Concrete offer fields used to instantiate the hypothesis-bearing
theorems. -/
def sampleFields : OfferIdFields :=
  { issuer := 17, investor := 23, tokenAddress := 0, partition := 0,
    tokenId := 0, amount := 1000, classId := 0, nonceId := 0,
    documentHash := 5, documentURI := [104, 105], expiry := 2000000000,
    nonce := 1 }

/-- A second concrete field set, differing from `sampleFields` in the nonce. -/
def sampleFields2 : OfferIdFields :=
  { sampleFields with nonce := 2 }

/-- Witness for claim C1 at concrete inputs. -/
theorem computeOfferId_deterministic_injective_witness :
    ValidOfferIdFields sampleFields ∧ ValidOfferIdFields sampleFields2 ∧
    (computeOfferId (fun _ => 0) sampleFields < M256 ∧
     (sampleFields = sampleFields2 →
       computeOfferId (fun _ => 0) sampleFields =
         computeOfferId (fun _ => 0) sampleFields2) ∧
     (sampleFields ≠ sampleFields2 →
       computeOfferId (fun _ => 0) sampleFields =
         computeOfferId (fun _ => 0) sampleFields2 →
       HashCollision (fun _ => 0))) :=
  ⟨by decide, by decide,
    computeOfferId_deterministic_injective (fun _ => 0) sampleFields sampleFields2
      (by decide) (by decide)⟩

/-- Claim C2: the hashed buffer is, in fixed field order, the one-byte
discriminators 0x01/0x02/0x03 each padded into their ABI word and followed
by the (zero-left-padded) raw address bytes of issuer, investor and the
asset token, then the fixed-width 32-byte encodings of partition, tokenId,
amount, classId, nonceId, documentHash, the hash of the documentURI bytes,
expiry and nonce; the id is the fixed hash of that whole buffer. -/
theorem offerIdEncoding_layout (k : List Nat → Nat) (x : OfferIdFields) :
    offerIdEncoding k x =
      ((1 : Nat) :: List.replicate 31 0) ++
      (List.replicate 12 0 ++ beBytes 20 x.issuer) ++
      ((2 : Nat) :: List.replicate 31 0) ++
      (List.replicate 12 0 ++ beBytes 20 x.investor) ++
      ((3 : Nat) :: List.replicate 31 0) ++
      (List.replicate 12 0 ++ beBytes 20 x.tokenAddress) ++
      beBytes 32 x.partition ++ beBytes 32 x.tokenId ++ beBytes 32 x.amount ++
      beBytes 32 x.classId ++ beBytes 32 x.nonceId ++
      beBytes 32 x.documentHash ++ beBytes 32 (k x.documentURI % M256) ++
      beBytes 32 x.expiry ++ beBytes 32 x.nonce ∧
    computeOfferId k x = k (offerIdEncoding k x) % M256 :=
  ⟨by simp [offerIdEncoding, abiEncode_cons, abiEncode_nil, abiWord], rfl⟩

/-- Claim C3: the documentURI reaches the id only through the 32-byte hash
of its bytes — substituting URIs whose hashes agree leaves the id
unchanged — and the pre-hash buffer always has the fixed length 480,
independent of the URI's length. -/
theorem offerId_uri_only_via_hash (k : List Nat → Nat) (x : OfferIdFields)
    (u1 u2 : List Nat) (hk : k u1 % M256 = k u2 % M256) :
    computeOfferId k { x with documentURI := u1 } =
      computeOfferId k { x with documentURI := u2 } ∧
    (offerIdEncoding k { x with documentURI := u1 }).length = 480 ∧
    (offerIdEncoding k x).length = 480 := by
  refine ⟨?_, ?_, ?_⟩
  · simp [computeOfferId, offerIdEncoding, hk]
  · simp [offerIdEncoding, abiEncode_length]
  · simp [offerIdEncoding, abiEncode_length]

/-- Witness for claim C3 at concrete inputs. -/
theorem offerId_uri_only_via_hash_witness :
    ((fun _ : List Nat => (0 : Nat)) [7] % M256 =
      (fun _ : List Nat => (0 : Nat)) [8, 9] % M256) ∧
    (computeOfferId (fun _ => 0) { sampleFields with documentURI := [7] } =
      computeOfferId (fun _ => 0) { sampleFields with documentURI := [8, 9] } ∧
     (offerIdEncoding (fun _ => 0)
        { sampleFields with documentURI := [7] }).length = 480 ∧
     (offerIdEncoding (fun _ => 0) sampleFields).length = 480) :=
  ⟨rfl, offerId_uri_only_via_hash (fun _ => 0) sampleFields [7] [8, 9] rfl⟩

/-- UTF-8 bytes of a string, as naturals. -/
def utf8Bytes (s : String) : List Nat :=
  s.toUTF8.toList.map (fun b => b.toNat)

theorem utf8Bytes_isBytes (s : String) : IsBytes (utf8Bytes s) := by
  intro b hb
  simp only [utf8Bytes, List.mem_map] at hb
  obtain ⟨u, -, rfl⟩ := hb
  exact u.toNat_lt

/-- EIP-712 domain type string bytes (ethers orders the fields name,
version, chainId, verifyingContract). -/
def eip712DomainTypeBytes : List Nat :=
  utf8Bytes ("EIP712Domain(string name,string version,uint256 chainId,address verifyingContract)")

/-- Type string bytes of the Offer struct, field names and types exactly as
in `OFFER_TYPES`. -/
def offerTypeBytes : List Nat :=
  utf8Bytes ("Offer(address issuer,address investor,address tokenAddress,bytes32 partition,uint256 tokenId,uint256 amount,uint256 classId,uint256 nonceId,bytes32 documentHash,string documentURI,uint256 expiry,uint256 nonce)")

/-- EIP-712 domain descriptor (name and version carried as their UTF-8
bytes). -/
structure Eip712Domain where
  name : List Nat
  version : List Nat
  chainId : Nat
  verifyingContract : Nat
deriving DecidableEq, Repr

/-- Protocol name fixed by the helper. -/
def EIP712_NAME : String := "AgreementManager"

/-- Protocol version fixed by the helper. -/
def EIP712_VERSION : String := "1"

/-- The `domain(chainId, verifyingContract)` function of the source: name
and version are the fixed protocol constants, chain id and verifying
contract are supplied by the embedding environment. -/
def domainOf (chainId verifyingContract : Nat) : Eip712Domain :=
  { name := utf8Bytes EIP712_NAME, version := utf8Bytes EIP712_VERSION,
    chainId := chainId, verifyingContract := verifyingContract }

/-- ABI encoding hashed into the EIP-712 domain separator: the domain type
hash, the hashes of name and version, the chain id, and the verifying
contract address. -/
def domainEncoding (k : List Nat → Nat) (d : Eip712Domain) : List Nat :=
  abiEncode
    [ (AbiTy.bytes32, k eip712DomainTypeBytes % M256),
      (AbiTy.bytes32, k d.name % M256),
      (AbiTy.bytes32, k d.version % M256),
      (AbiTy.uint256, d.chainId),
      (AbiTy.address, d.verifyingContract) ]

/-- EIP-712 domain separator. -/
def domainSeparator (k : List Nat → Nat) (d : Eip712Domain) : Nat :=
  k (domainEncoding k d) % M256

/-- ABI encoding hashed into the Offer struct hash: the type hash followed
by the twelve fields in `OFFER_TYPES` order, the string field represented
by the hash of its bytes. -/
def structEncoding (k : List Nat → Nat) (x : OfferIdFields) : List Nat :=
  abiEncode
    [ (AbiTy.bytes32, k offerTypeBytes % M256),
      (AbiTy.address, x.issuer), (AbiTy.address, x.investor),
      (AbiTy.address, x.tokenAddress),
      (AbiTy.bytes32, x.partition), (AbiTy.uint256, x.tokenId),
      (AbiTy.uint256, x.amount), (AbiTy.uint256, x.classId),
      (AbiTy.uint256, x.nonceId), (AbiTy.bytes32, x.documentHash),
      (AbiTy.bytes32, k x.documentURI % M256),
      (AbiTy.uint256, x.expiry), (AbiTy.uint256, x.nonce) ]

/-- EIP-712 struct hash of an offer payload. -/
def structHashOffer (k : List Nat → Nat) (x : OfferIdFields) : Nat :=
  k (structEncoding k x) % M256

/-- The pre-image of the final EIP-712 digest: 0x19 0x01, the domain
separator, the struct hash. -/
def digestEncoding (k : List Nat → Nat) (d : Eip712Domain) (x : OfferIdFields) :
    List Nat :=
  25 :: 1 :: (beBytes 32 (domainSeparator k d) ++ beBytes 32 (structHashOffer k x))

/-- EIP-712 signing digest over an explicit domain descriptor. -/
def buildOfferDigestD (k : List Nat → Nat) (d : Eip712Domain)
    (x : OfferIdFields) : Nat :=
  k (digestEncoding k d x) % M256

/-- The signing digest built by `AgreementManagerHelper.buildOfferDigest`:
`TypedDataEncoder.hash(domain(chainId, verifyingContract), OFFER_TYPES,
offer)`. -/
def buildOfferDigest (k : List Nat → Nat) (chainId verifyingContract : Nat)
    (x : OfferIdFields) : Nat :=
  buildOfferDigestD k (domainOf chainId verifyingContract) x

/-- Well-formed domain descriptor. -/
def ValidDomain (d : Eip712Domain) : Prop :=
  IsBytes d.name ∧ IsBytes d.version ∧ d.chainId < M256 ∧
  d.verifyingContract < 2 ^ 160

instance (d : Eip712Domain) : Decidable (ValidDomain d) := by
  unfold ValidDomain; infer_instance

theorem validDomain_domainOf {chainId verifyingContract : Nat}
    (hc : chainId < M256) (hv : verifyingContract < 2 ^ 160) :
    ValidDomain (domainOf chainId verifyingContract) :=
  ⟨utf8Bytes_isBytes _, utf8Bytes_isBytes _, hc, hv⟩

theorem domainSeparator_lt (k : List Nat → Nat) (d : Eip712Domain) :
    domainSeparator k d < M256 :=
  Nat.mod_lt _ M256_pos

theorem structHashOffer_lt (k : List Nat → Nat) (x : OfferIdFields) :
    structHashOffer k x < M256 :=
  Nat.mod_lt _ M256_pos

theorem digestEncoding_isBytes (k : List Nat → Nat) (d : Eip712Domain)
    (x : OfferIdFields) : IsBytes (digestEncoding k d x) := by
  intro b hb
  simp only [digestEncoding, List.mem_cons, List.mem_append] at hb
  rcases hb with hb | hb | hb | hb
  · omega
  · omega
  · exact beBytes_mem_lt hb
  · exact beBytes_mem_lt hb

theorem domainEncoding_inj (k : List Nat → Nat) {d1 d2 : Eip712Domain}
    (h1 : ValidDomain d1) (h2 : ValidDomain d2)
    (h : domainEncoding k d1 = domainEncoding k d2) :
    d1 = d2 ∨ HashCollision k := by
  obtain ⟨hn1, hv1, hc1, hvc1⟩ := h1
  obtain ⟨hn2, hv2, hc2, hvc2⟩ := h2
  simp only [domainEncoding, abiEncode_cons, abiEncode_nil, List.append_nil] at h
  obtain ⟨-, h⟩ := chopSeg (by simp [abiWord_length]) h
  obtain ⟨hName, h⟩ := chopSeg (by simp [abiWord_length]) h
  obtain ⟨hVer, h⟩ := chopSeg (by simp [abiWord_length]) h
  obtain ⟨hChain, hVc⟩ := chopSeg (by simp [abiWord_length]) h
  have eName := abiWord_b32_inj (Nat.mod_lt _ M256_pos) (Nat.mod_lt _ M256_pos) hName
  have eVer := abiWord_b32_inj (Nat.mod_lt _ M256_pos) (Nat.mod_lt _ M256_pos) hVer
  have eChain := abiWord_u256_inj hc1 hc2 hChain
  have eVc := abiWord_address_inj hvc1 hvc2 hVc
  by_cases hnm : d1.name = d2.name
  · by_cases hvr : d1.version = d2.version
    · left; cases d1; cases d2; simp_all
    · exact Or.inr ⟨d1.version, d2.version, hv1, hv2, hvr, eVer⟩
  · exact Or.inr ⟨d1.name, d2.name, hn1, hn2, hnm, eName⟩

theorem structEncoding_inj (k : List Nat → Nat) {x y : OfferIdFields}
    (hx : ValidOfferIdFields x) (hy : ValidOfferIdFields y)
    (h : structEncoding k x = structEncoding k y) :
    x = y ∨ (x.documentURI ≠ y.documentURI ∧
      k x.documentURI % M256 = k y.documentURI % M256) := by
  obtain ⟨hx1, hx2, hx3, hx4, hx5, hx6, hx7, hx8, hx9, hx10, hx11, -⟩ := hx
  obtain ⟨hy1, hy2, hy3, hy4, hy5, hy6, hy7, hy8, hy9, hy10, hy11, -⟩ := hy
  simp only [structEncoding, abiEncode_cons, abiEncode_nil, List.append_nil] at h
  obtain ⟨-, h⟩ := chopSeg (by simp [abiWord_length]) h
  obtain ⟨hIss, h⟩ := chopSeg (by simp [abiWord_length]) h
  obtain ⟨hInv, h⟩ := chopSeg (by simp [abiWord_length]) h
  obtain ⟨hTok, h⟩ := chopSeg (by simp [abiWord_length]) h
  obtain ⟨hPar, h⟩ := chopSeg (by simp [abiWord_length]) h
  obtain ⟨hTid, h⟩ := chopSeg (by simp [abiWord_length]) h
  obtain ⟨hAmt, h⟩ := chopSeg (by simp [abiWord_length]) h
  obtain ⟨hCls, h⟩ := chopSeg (by simp [abiWord_length]) h
  obtain ⟨hNid, h⟩ := chopSeg (by simp [abiWord_length]) h
  obtain ⟨hDoc, h⟩ := chopSeg (by simp [abiWord_length]) h
  obtain ⟨hUri, h⟩ := chopSeg (by simp [abiWord_length]) h
  obtain ⟨hExp, hNon⟩ := chopSeg (by simp [abiWord_length]) h
  have eUri := abiWord_b32_inj (Nat.mod_lt _ M256_pos) (Nat.mod_lt _ M256_pos) hUri
  by_cases hu : x.documentURI = y.documentURI
  · left
    have e1 := abiWord_address_inj hx1 hy1 hIss
    have e2 := abiWord_address_inj hx2 hy2 hInv
    have e3 := abiWord_address_inj hx3 hy3 hTok
    have e4 := abiWord_b32_inj hx4 hy4 hPar
    have e5 := abiWord_u256_inj hx5 hy5 hTid
    have e6 := abiWord_u256_inj hx6 hy6 hAmt
    have e7 := abiWord_u256_inj hx7 hy7 hCls
    have e8 := abiWord_u256_inj hx8 hy8 hNid
    have e9 := abiWord_b32_inj hx9 hy9 hDoc
    have e10 := abiWord_u256_inj hx10 hy10 hExp
    have e11 := abiWord_u256_inj hx11 hy11 hNon
    cases x; cases y
    simp_all
  · exact Or.inr ⟨hu, eUri⟩

theorem digest_eq_cases (k : List Nat → Nat) {d1 d2 : Eip712Domain}
    {x1 x2 : OfferIdFields}
    (hd1 : ValidDomain d1) (hd2 : ValidDomain d2)
    (hx1 : ValidOfferIdFields x1) (hx2 : ValidOfferIdFields x2)
    (h : buildOfferDigestD k d1 x1 = buildOfferDigestD k d2 x2) :
    (d1 = d2 ∧ x1 = x2) ∨ HashCollision k := by
  simp only [buildOfferDigestD] at h
  by_cases hbuf : digestEncoding k d1 x1 = digestEncoding k d2 x2
  · simp only [digestEncoding, List.cons.injEq, true_and] at hbuf
    obtain ⟨hsep, hsh⟩ := chopSeg (by simp [beBytes_length]) hbuf
    have esep := beBytes_inj (M256_eq_pow ▸ domainSeparator_lt k d1)
      (M256_eq_pow ▸ domainSeparator_lt k d2) hsep
    have esh := beBytes_inj (M256_eq_pow ▸ structHashOffer_lt k x1)
      (M256_eq_pow ▸ structHashOffer_lt k x2) hsh
    simp only [domainSeparator] at esep
    simp only [structHashOffer] at esh
    by_cases hde : domainEncoding k d1 = domainEncoding k d2
    · rcases domainEncoding_inj k hd1 hd2 hde with hdd | hc
      · by_cases hse : structEncoding k x1 = structEncoding k x2
        · rcases structEncoding_inj k hx1 hx2 hse with hxx | ⟨hu, hcu⟩
          · exact Or.inl ⟨hdd, hxx⟩
          · exact Or.inr ⟨x1.documentURI, x2.documentURI,
              hx1.2.2.2.2.2.2.2.2.2.2.2, hx2.2.2.2.2.2.2.2.2.2.2.2, hu, hcu⟩
        · exact Or.inr ⟨structEncoding k x1, structEncoding k x2,
            abiEncode_isBytes _, abiEncode_isBytes _, hse, esh⟩
      · exact Or.inr hc
    · exact Or.inr ⟨domainEncoding k d1, domainEncoding k d2,
        abiEncode_isBytes _, abiEncode_isBytes _, hde, esep⟩
  · exact Or.inr ⟨digestEncoding k d1 x1, digestEncoding k d2 x2,
      digestEncoding_isBytes k d1 x1, digestEncoding_isBytes k d2 x2, hbuf, h⟩

/-- Claim C4: the signing digest incorporates the domain parameters: for a
fixed offer payload, changing chainId or verifyingContract through the
source's `domain` constructor — and likewise changing the name or version
of a general domain descriptor — can only leave the digest unchanged by
exhibiting a concrete collision of the underlying hash, so under an honest
hash every such change invalidates previously-valid signatures. -/
theorem buildOfferDigest_domain_separation (k : List Nat → Nat)
    (x : OfferIdFields) (hx : ValidOfferIdFields x) :
    (∀ c1 v1 c2 v2 : Nat, c1 < M256 → v1 < 2 ^ 160 → c2 < M256 →
      v2 < 2 ^ 160 → (c1, v1) ≠ (c2, v2) →
      buildOfferDigest k c1 v1 x = buildOfferDigest k c2 v2 x →
      HashCollision k) ∧
    (∀ d1 d2 : Eip712Domain, ValidDomain d1 → ValidDomain d2 → d1 ≠ d2 →
      buildOfferDigestD k d1 x = buildOfferDigestD k d2 x →
      HashCollision k) := by
  constructor
  · intro c1 v1 c2 v2 hc1 hv1 hc2 hv2 hne heq
    rcases digest_eq_cases k (validDomain_domainOf hc1 hv1)
      (validDomain_domainOf hc2 hv2) hx hx heq with ⟨hdd, -⟩ | hc
    · refine absurd ?_ hne
      have hcid := congrArg Eip712Domain.chainId hdd
      have hvc := congrArg Eip712Domain.verifyingContract hdd
      simp only [domainOf] at hcid hvc
      exact Prod.ext hcid hvc
    · exact hc
  · intro d1 d2 hd1 hd2 hne heq
    rcases digest_eq_cases k hd1 hd2 hx hx heq with ⟨hdd, -⟩ | hc
    · exact absurd hdd hne
    · exact hc

/-- Witness for claim C4 at concrete inputs. -/
theorem buildOfferDigest_domain_separation_witness :
    ValidOfferIdFields sampleFields ∧
    ((1 : Nat), (2 : Nat)) ≠ ((3 : Nat), (2 : Nat)) ∧
    buildOfferDigest (fun _ => 0) 1 2 sampleFields =
      buildOfferDigest (fun _ => 0) 3 2 sampleFields ∧
    HashCollision (fun _ => 0) :=
  ⟨by decide, by decide, rfl,
    (buildOfferDigest_domain_separation (fun _ => 0) sampleFields (by decide)).1
      1 2 3 2 (by decide) (by decide) (by decide) (by decide) (by decide) rfl⟩

/-- The source's `signOffer`: sign the EIP-712 digest of the offer under
the given chain id and verifying contract.  The elliptic-curve scheme is
external, passed as the `sign` parameter together with the signer's key. -/
def signOffer {Key Sig : Type} (k : List Nat → Nat) (sign : Key → Nat → Sig)
    (key : Key) (chainId verifyingContract : Nat) (x : OfferIdFields) : Sig :=
  sign key (buildOfferDigest k chainId verifyingContract x)

/-- The source's `recoverOfferSigner`: rebuild the same digest with
`buildOfferDigest` and recover the signer address from the signature. -/
def recoverOfferSigner {Sig : Type} (k : List Nat → Nat)
    (recoverAddress : Nat → Sig → Nat) (chainId verifyingContract : Nat)
    (x : OfferIdFields) (sig : Sig) : Nat :=
  recoverAddress (buildOfferDigest k chainId verifyingContract x) sig

/-- Claim C5: with a signature scheme in which recovery inverts signing,
recovery under a different digest never yields the signer, and recovery of
a different signature never yields the signer, a signature produced by
`signOffer` recovers the signer's address via `recoverOfferSigner` on the
same chain id, contract and payload; changing any offer or domain field can
defeat this only by exhibiting a concrete hash collision, and altering the
signature makes the recovered address differ from the signer. -/
theorem signOffer_recover_roundtrip {Key Sig : Type} (k : List Nat → Nat)
    (sign : Key → Nat → Sig) (recoverAddress : Nat → Sig → Nat)
    (addrOf : Key → Nat)
    (hCorrect : ∀ key d, recoverAddress d (sign key d) = addrOf key)
    (hDigestBind : ∀ key d d2, d2 ≠ d →
      recoverAddress d2 (sign key d) ≠ addrOf key)
    (hSigBind : ∀ d key sig, sig ≠ sign key d →
      recoverAddress d sig ≠ addrOf key)
    (chainId vc : Nat) (x : OfferIdFields) (key : Key)
    (hc : chainId < M256) (hv : vc < 2 ^ 160) (hx : ValidOfferIdFields x) :
    recoverOfferSigner k recoverAddress chainId vc x
      (signOffer k sign key chainId vc x) = addrOf key ∧
    (∀ c2 v2 x2, c2 < M256 → v2 < 2 ^ 160 → ValidOfferIdFields x2 →
      (c2, v2, x2) ≠ (chainId, vc, x) →
      recoverOfferSigner k recoverAddress c2 v2 x2
        (signOffer k sign key chainId vc x) = addrOf key →
      HashCollision k) ∧
    (∀ sig : Sig, sig ≠ signOffer k sign key chainId vc x →
      recoverOfferSigner k recoverAddress chainId vc x sig ≠ addrOf key) := by
  refine ⟨hCorrect key _, ?_, ?_⟩
  · intro c2 v2 x2 hc2 hv2 hx2 hne hrec
    by_cases hd : buildOfferDigest k c2 v2 x2 = buildOfferDigest k chainId vc x
    · rcases digest_eq_cases k (validDomain_domainOf hc2 hv2)
        (validDomain_domainOf hc hv) hx2 hx hd with ⟨hdd, hxx⟩ | hcol
      · refine absurd ?_ hne
        have hcid := congrArg Eip712Domain.chainId hdd
        have hvc2 := congrArg Eip712Domain.verifyingContract hdd
        simp only [domainOf] at hcid hvc2
        exact Prod.ext hcid (Prod.ext hvc2 hxx)
      · exact hcol
    · exact absurd hrec (hDigestBind key _ _ hd)
  · intro sig hne
    exact hSigBind _ key sig hne

/-- Concrete signing function for the witness scheme: a signature records
the key and the digest. -/
def wSign : Nat → Nat → Nat × Nat := fun key d => (key, d)

/-- Concrete recovery for the witness scheme: even result on a matching
digest, odd otherwise, so mismatches never land on an address. -/
def wRecover : Nat → Nat × Nat → Nat :=
  fun d s => if s.2 = d then 2 * s.1 else 2 * s.1 + 1

/-- Addresses of the witness scheme are even numbers. -/
def wAddr : Nat → Nat := fun key => 2 * key

theorem wCorrect : ∀ key d, wRecover d (wSign key d) = wAddr key := by
  intro key d
  simp [wRecover, wSign, wAddr]

theorem wDigestBind : ∀ key d d2, d2 ≠ d →
    wRecover d2 (wSign key d) ≠ wAddr key := by
  intro key d d2 hne
  simp only [wRecover, wSign, wAddr]
  rw [if_neg (fun h => hne h.symm)]
  omega

theorem wSigBind : ∀ d key sig, sig ≠ wSign key d →
    wRecover d sig ≠ wAddr key := by
  intro d key sig hne
  obtain ⟨a, b⟩ := sig
  simp only [wRecover, wSign, wAddr] at hne ⊢
  by_cases hb : b = d
  · subst hb
    rw [if_pos rfl]
    intro h
    have ha : a = key := by omega
    exact hne (by rw [ha])
  · rw [if_neg hb]
    omega

/-- Witness for claim C5 at concrete inputs. -/
theorem signOffer_recover_roundtrip_witness :
    (∀ key d, wRecover d (wSign key d) = wAddr key) ∧
    (1 : Nat) < M256 ∧ (2 : Nat) < 2 ^ 160 ∧ ValidOfferIdFields sampleFields ∧
    (recoverOfferSigner (fun _ => 0) wRecover 1 2 sampleFields
        (signOffer (fun _ => 0) wSign 7 1 2 sampleFields) = wAddr 7 ∧
     (∀ c2 v2 x2, c2 < M256 → v2 < 2 ^ 160 → ValidOfferIdFields x2 →
        (c2, v2, x2) ≠ ((1 : Nat), (2 : Nat), sampleFields) →
        recoverOfferSigner (fun _ => 0) wRecover c2 v2 x2
          (signOffer (fun _ => 0) wSign 7 1 2 sampleFields) = wAddr 7 →
        HashCollision (fun _ => 0)) ∧
     (∀ sig, sig ≠ signOffer (fun _ => 0) wSign 7 1 2 sampleFields →
        recoverOfferSigner (fun _ => 0) wRecover 1 2 sampleFields sig ≠
          wAddr 7)) :=
  ⟨wCorrect, by decide, by decide, by decide,
    signOffer_recover_roundtrip (fun _ => 0) wSign wRecover wAddr wCorrect
      wDigestBind wSigBind 1 2 sampleFields 7 (by decide) (by decide)
      (by decide)⟩

/-- Offer status enum — values and order exactly as the source's
`OfferStatus` (MUST match Solidity order). -/
inductive OfferStatus
  | None
  | Offered
  | Accepted
  | Rejected
  | Cancelled
deriving DecidableEq, Repr

/-- Numeric value of each offer status, as assigned in the source enum. -/
def OfferStatus.toNat : OfferStatus → Nat
  | OfferStatus.None => 0
  | OfferStatus.Offered => 1
  | OfferStatus.Accepted => 2
  | OfferStatus.Rejected => 3
  | OfferStatus.Cancelled => 4

/-- Dispute status enum — values and order exactly as the source's
`DisputeStatus`. -/
inductive DisputeStatus
  | None
  | Raised
  | Acknowledged
  | Resolved
  | Rejected
deriving DecidableEq, Repr

/-- Numeric value of each dispute status, as assigned in the source enum. -/
def DisputeStatus.toNat : DisputeStatus → Nat
  | DisputeStatus.None => 0
  | DisputeStatus.Raised => 1
  | DisputeStatus.Acknowledged => 2
  | DisputeStatus.Resolved => 3
  | DisputeStatus.Rejected => 4

/-- Modelled from the spec: the stored on-chain Offer record of
AgreementManagerUpgradeable.sol, whose Solidity source is not among the
sources; the fields follow the design's data model and the helper's
`OfferStruct` mirror of it. -/
structure Offer where
  issuer : Nat
  investor : Nat
  tokenAddress : Nat
  partition : Nat
  tokenId : Nat
  amount : Nat
  classId : Nat
  nonceId : Nat
  documentHash : Nat
  documentURI : List Nat
  expiry : Nat
  nonce : Nat
  delegatedTo : Nat
  issuerSig : List Nat
  status : OfferStatus
deriving DecidableEq, Repr

/-- Modelled from the spec: the stored Dispute record (claimant, optional
offer id, evidence URI bytes, status, creation time). -/
structure Dispute where
  claimant : Nat
  offerId : Nat
  evidenceURI : List Nat
  status : DisputeStatus
  createdAt : Nat
deriving DecidableEq, Repr

/-- Modelled from the spec: ledger storage — offers and disputes keyed by
their 32-byte ids, plus the settled-id set. -/
structure LedgerState where
  offers : List (Nat × Offer)
  disputes : List (Nat × Dispute)
  settled : List Nat
deriving DecidableEq, Repr

/-- Keyed lookup in the offer store. -/
def lookupOffer (l : List (Nat × Offer)) (id : Nat) : Option Offer :=
  (l.find? (fun p => p.1 == id)).map Prod.snd

/-- The `getOffer` view: the stored offer record for an id, if any. -/
def getOffer (st : LedgerState) (id : Nat) : Option Offer :=
  lookupOffer st.offers id

/-- The `getDispute` view: the stored dispute record for an id, if any. -/
def getDispute (st : LedgerState) (id : Nat) : Option Dispute :=
  (st.disputes.find? (fun p => p.1 == id)).map Prod.snd

/-- The canonical twelve-field payload of a stored offer (what both the id
and the signing digest are computed from). -/
def payloadOf (o : Offer) : OfferIdFields :=
  { issuer := o.issuer, investor := o.investor, tokenAddress := o.tokenAddress,
    partition := o.partition, tokenId := o.tokenId, amount := o.amount,
    classId := o.classId, nonceId := o.nonceId, documentHash := o.documentHash,
    documentURI := o.documentURI, expiry := o.expiry, nonce := o.nonce }

/-- Modelled from the spec: acceptance authorization — the caller must be
the delegated executor when `delegatedTo` is set, and exclusively so (the
named investor may not accept directly then); otherwise the caller must be
the investor. -/
def acceptAuthorized (o : Offer) (caller : Nat) : Bool :=
  if o.delegatedTo ≠ 0 then caller == o.delegatedTo else caller == o.investor

/-- Error classes of the ledger operations. -/
inductive AMError
  | InvalidState
  | ExpiredOffer
  | NotAuthorized
  | BadSignature
  | NonceAlreadyUsed
  | DuplicateOffer
deriving DecidableEq, Repr

/-- Overwrites the status of the offer stored under `id`. -/
def setOfferStatus (l : List (Nat × Offer)) (id : Nat) (s : OfferStatus) :
    List (Nat × Offer) :=
  l.map (fun p => if p.1 == id then (p.1, { p.2 with status := s }) else p)

/-- Modelled from the spec: the on-chain `acceptOffer` transition (the
Solidity contract is not among the sources) — requires a stored offer in
status Offered, not expired, an authorized caller per `acceptAuthorized`,
and an investor signature valid for the offer's EIP-712 digest; then marks
the offer Accepted and the id settled. -/
def acceptOffer (verify : Nat → List Nat → Nat → Bool) (k : List Nat → Nat)
    (chainId vc : Nat) (st : LedgerState) (caller now id : Nat)
    (investorSig : List Nat) : Except AMError LedgerState :=
  match lookupOffer st.offers id with
  | Option.none => Except.error AMError.InvalidState
  | Option.some o =>
    if o.status ≠ OfferStatus.Offered then Except.error AMError.InvalidState
    else if o.expiry < now then Except.error AMError.ExpiredOffer
    else if acceptAuthorized o caller = false then
      Except.error AMError.NotAuthorized
    else if verify (buildOfferDigest k chainId vc (payloadOf o)) investorSig
        o.investor = false then
      Except.error AMError.BadSignature
    else
      Except.ok { st with
        offers := setOfferStatus st.offers id OfferStatus.Accepted,
        settled := id :: st.settled }

/-- Success recognizer for ledger operations. -/
def exceptOk {e a : Type} : Except e a → Bool
  | Except.ok _ => true
  | Except.error _ => false

/-- Claim C6: when an offer's `delegatedTo` is a non-zero address D
distinct from the investor, acceptance invoked by the investor directly is
rejected as unauthorized, acceptance invoked by D succeeds (status Offered,
not expired, valid investor signature), and no caller other than D can
succeed. -/
theorem acceptOffer_delegated_exclusive
    (verify : Nat → List Nat → Nat → Bool) (k : List Nat → Nat)
    (chainId vc now id D : Nat) (st : LedgerState) (o : Offer)
    (sig : List Nat)
    (hfind : lookupOffer st.offers id = Option.some o)
    (hst : o.status = OfferStatus.Offered)
    (hexp : now ≤ o.expiry)
    (hD : o.delegatedTo = D) (hD0 : D ≠ 0) (hDI : o.investor ≠ D)
    (hsig : verify (buildOfferDigest k chainId vc (payloadOf o)) sig
      o.investor = true) :
    acceptOffer verify k chainId vc st o.investor now id sig =
      Except.error AMError.NotAuthorized ∧
    exceptOk (acceptOffer verify k chainId vc st D now id sig) = true ∧
    (∀ c, exceptOk (acceptOffer verify k chainId vc st c now id sig) = true →
      c = D) := by
  have hnotexp : ¬ (o.expiry < now) := not_lt.mpr hexp
  have hauthInv : acceptAuthorized o o.investor = false := by
    simp [acceptAuthorized, hD, hD0, hDI]
  have hauthD : acceptAuthorized o D = true := by
    simp [acceptAuthorized, hD, hD0]
  refine ⟨?_, ?_, ?_⟩
  · simp [acceptOffer, hfind, hst, hnotexp, hauthInv]
  · simp [acceptOffer, hfind, hst, hnotexp, hauthD, hsig, exceptOk]
  · intro c hc
    by_cases hca : acceptAuthorized o c = true
    · simp only [acceptAuthorized, hD, if_pos hD0, beq_iff_eq] at hca
      exact hca
    · rw [Bool.not_eq_true] at hca
      simp [acceptOffer, hfind, hst, hnotexp, hca, exceptOk] at hc

/-- Concrete stored offer for the ledger witnesses: delegated to address 9,
investor 23. -/
def sampleOffer : Offer :=
  { issuer := 17, investor := 23, tokenAddress := 0, partition := 0,
    tokenId := 0, amount := 1000, classId := 0, nonceId := 0,
    documentHash := 5, documentURI := [104, 105], expiry := 2000000000,
    nonce := 1, delegatedTo := 9, issuerSig := [1, 2],
    status := OfferStatus.Offered }

/-- Concrete ledger holding `sampleOffer` under id 5. -/
def sampleLedger : LedgerState :=
  { offers := [(5, sampleOffer)], disputes := [], settled := [] }

/-- Witness for claim C6 at concrete inputs. -/
theorem acceptOffer_delegated_exclusive_witness :
    lookupOffer sampleLedger.offers 5 = Option.some sampleOffer ∧
    sampleOffer.delegatedTo = 9 ∧ sampleOffer.investor ≠ 9 ∧
    (acceptOffer (fun _ _ _ => true) (fun _ => 0) 1 2 sampleLedger
        sampleOffer.investor 10 5 [3] = Except.error AMError.NotAuthorized ∧
     exceptOk (acceptOffer (fun _ _ _ => true) (fun _ => 0) 1 2 sampleLedger
        9 10 5 [3]) = true ∧
     (∀ c, exceptOk (acceptOffer (fun _ _ _ => true) (fun _ => 0) 1 2
        sampleLedger c 10 5 [3]) = true → c = 9)) :=
  ⟨by decide, by decide, by decide,
    acceptOffer_delegated_exclusive (fun _ _ _ => true) (fun _ => 0) 1 2 10 5 9
      sampleLedger sampleOffer [3] (by decide) (by decide) (by decide)
      (by decide) (by decide) (by decide) rfl⟩

/-- Claim C7: the offer status type has exactly the five values None,
Offered, Accepted, Rejected, Cancelled numbered 0 through 4 in that order,
the dispute status type has exactly None, Raised, Acknowledged, Resolved,
Rejected numbered 0 through 4, and any status carried by a record that
`getOffer` or `getDispute` can return is among those values. -/
theorem status_enums_complete :
    ([OfferStatus.None, OfferStatus.Offered, OfferStatus.Accepted,
      OfferStatus.Rejected, OfferStatus.Cancelled].map OfferStatus.toNat =
      [0, 1, 2, 3, 4]) ∧
    (∀ s : OfferStatus, s ∈ [OfferStatus.None, OfferStatus.Offered,
      OfferStatus.Accepted, OfferStatus.Rejected, OfferStatus.Cancelled]) ∧
    ([DisputeStatus.None, DisputeStatus.Raised, DisputeStatus.Acknowledged,
      DisputeStatus.Resolved, DisputeStatus.Rejected].map DisputeStatus.toNat =
      [0, 1, 2, 3, 4]) ∧
    (∀ s : DisputeStatus, s ∈ [DisputeStatus.None, DisputeStatus.Raised,
      DisputeStatus.Acknowledged, DisputeStatus.Resolved,
      DisputeStatus.Rejected]) ∧
    (∀ st id, ((getOffer st id).map Offer.status).getD OfferStatus.None ∈
      [OfferStatus.None, OfferStatus.Offered, OfferStatus.Accepted,
       OfferStatus.Rejected, OfferStatus.Cancelled]) ∧
    (∀ st id, ((getDispute st id).map Dispute.status).getD DisputeStatus.None ∈
      [DisputeStatus.None, DisputeStatus.Raised, DisputeStatus.Acknowledged,
       DisputeStatus.Resolved, DisputeStatus.Rejected]) := by
  refine ⟨rfl, ?_, rfl, ?_, ?_, ?_⟩
  · intro s; cases s <;> simp
  · intro s; cases s <;> simp
  · intro st id
    cases ((getOffer st id).map Offer.status).getD OfferStatus.None <;> simp
  · intro st id
    cases ((getDispute st id).map Dispute.status).getD DisputeStatus.None <;>
      simp

/-- Arguments of the helper's `offer(a)` call — the canonical fields plus
the issuer signature and the optional delegated executor. -/
structure OfferArgs where
  investor : Nat
  tokenAddress : Nat
  partition : Nat
  tokenId : Nat
  amount : Nat
  classId : Nat
  nonceId : Nat
  documentHash : Nat
  documentURI : List Nat
  expiry : Nat
  nonce : Nat
  issuerSig : List Nat
  delegatedTo : Option Nat
deriving DecidableEq, Repr

/-- The argument tuple the helper's `offer` actually submits to the
on-chain `offer(...)` function, after applying the ZeroAddress default. -/
structure SubmittedOffer where
  investor : Nat
  tokenAddress : Nat
  partition : Nat
  tokenId : Nat
  amount : Nat
  classId : Nat
  nonceId : Nat
  documentHash : Nat
  documentURI : List Nat
  expiry : Nat
  nonce : Nat
  issuerSig : List Nat
  delegatedTo : Nat
deriving DecidableEq, Repr

/-- The helper's `offer(a)`: computes the deterministic offer id from the
caller's address and the eleven canonical argument fields, then submits the
call with `a.delegatedTo ?? ZeroAddress`; returns the id alongside. -/
def offerTx (k : List Nat → Nat) (issuer : Nat) (a : OfferArgs) :
    Nat × SubmittedOffer :=
  (computeOfferId k
     { issuer := issuer, investor := a.investor,
       tokenAddress := a.tokenAddress, partition := a.partition,
       tokenId := a.tokenId, amount := a.amount, classId := a.classId,
       nonceId := a.nonceId, documentHash := a.documentHash,
       documentURI := a.documentURI, expiry := a.expiry, nonce := a.nonce },
   { investor := a.investor, tokenAddress := a.tokenAddress,
     partition := a.partition, tokenId := a.tokenId, amount := a.amount,
     classId := a.classId, nonceId := a.nonceId,
     documentHash := a.documentHash, documentURI := a.documentURI,
     expiry := a.expiry, nonce := a.nonce, issuerSig := a.issuerSig,
     delegatedTo := a.delegatedTo.getD 0 })

/-- Claim C8: the offerId returned by the offer operation does not depend
on the delegatedTo or issuerSig arguments — it is derived only from the
twelve canonical fields (issuer being the caller), so any two choices of
delegation and signature leave the id untouched. -/
theorem offerId_independent_of_delegation_and_sig (k : List Nat → Nat)
    (issuer : Nat) (a : OfferArgs) (d1 d2 : Option Nat) (s1 s2 : List Nat) :
    (offerTx k issuer { a with delegatedTo := d1, issuerSig := s1 }).1 =
      (offerTx k issuer { a with delegatedTo := d2, issuerSig := s2 }).1 :=
  rfl

/-- Claim C9: an offer created without a delegatedTo value submits the zero
address as delegated executor, producing an undelegated offer. -/
theorem offer_defaults_delegatedTo_zero (k : List Nat → Nat) (issuer : Nat)
    (a : OfferArgs) (h : a.delegatedTo = Option.none) :
    (offerTx k issuer a).2.delegatedTo = 0 := by
  simp [offerTx, h]

/-- Concrete offer arguments with no delegation. -/
def sampleArgs : OfferArgs :=
  { investor := 23, tokenAddress := 0, partition := 0, tokenId := 0,
    amount := 1000, classId := 0, nonceId := 0, documentHash := 5,
    documentURI := [104], expiry := 2000000000, nonce := 1,
    issuerSig := [1], delegatedTo := Option.none }

/-- Witness for claim C9 at concrete inputs. -/
theorem offer_defaults_delegatedTo_zero_witness :
    sampleArgs.delegatedTo = Option.none ∧
    (offerTx (fun _ => 0) 17 sampleArgs).2.delegatedTo = 0 :=
  ⟨rfl, offer_defaults_delegatedTo_zero (fun _ => 0) 17 sampleArgs rfl⟩

/-- A receipt log as `contract.interface.parseLog` sees it: either it fails
to parse (`Option.none` in the list) or yields an event name and an
optional `disputeId` argument. -/
structure ParsedLog where
  name : String
  disputeId : Option String
deriving DecidableEq, Repr

/-- The log scan inside `raiseDispute`: the first log parsing as a
DisputeRaised event contributes its (possibly absent) disputeId argument
and stops the scan; parse failures are ignored. -/
def findDisputeRaisedId : List (Option ParsedLog) → Option String
  | [] => Option.none
  | Option.none :: rest => findDisputeRaisedId rest
  | Option.some p :: rest =>
    if p.name = "DisputeRaised" then p.disputeId else findDisputeRaisedId rest

/-- The `"0x".padEnd(66, c)` string builder used for the fallback id. -/
def padEndChar (s : String) (n : Nat) (c : Char) : String :=
  s ++ String.mk (List.replicate (n - s.length) c)

/-- The value `raiseDispute` resolves with once the receipt is in hand: the
disputeId of the first DisputeRaised log, defaulting to
`"0x".padEnd(66, "0")`, paired with the receipt — never an error. -/
def raiseDisputeResult (parsedLogs : List (Option ParsedLog))
    (receipt : Nat) : String × Nat :=
  ((findDisputeRaisedId parsedLogs).getD (padEndChar ("0x") 66 '0'), receipt)

/-- A log entry that is not a parsed DisputeRaised event. -/
def notRaisedLog : Option ParsedLog → Prop
  | Option.none => True
  | Option.some p => p.name ≠ "DisputeRaised"

instance (pl : Option ParsedLog) : Decidable (notRaisedLog pl) := by
  cases pl <;> simp only [notRaisedLog] <;> infer_instance

theorem findDisputeRaisedId_eq_none :
    ∀ ls : List (Option ParsedLog), (∀ pl ∈ ls, notRaisedLog pl) →
      findDisputeRaisedId ls = Option.none := by
  intro ls
  induction ls with
  | nil => intro h; rfl
  | cons hd tl ih =>
    intro h
    have htl := ih (fun pl hpl => h pl (List.mem_cons_of_mem _ hpl))
    cases hd with
    | none => simp [findDisputeRaisedId, htl]
    | some p =>
      have hp : p.name ≠ "DisputeRaised" :=
        h (Option.some p) (List.mem_cons_self _ _)
      simp [findDisputeRaisedId, hp, htl]

/-- Claim C10: when no receipt log parses as a DisputeRaised event,
`raiseDispute` still resolves — returning the all-zero 32-byte id (the
66-character string of 0x followed by 64 zeros) together with the
receipt — rather than raising an error. -/
theorem raiseDispute_no_event_zero_id (parsedLogs : List (Option ParsedLog))
    (receipt : Nat) (h : ∀ pl ∈ parsedLogs, notRaisedLog pl) :
    raiseDisputeResult parsedLogs receipt =
      ("0x0000000000000000000000000000000000000000000000000000000000000000",
        receipt) ∧
    (raiseDisputeResult parsedLogs receipt).1.length = 66 := by
  have hfind := findDisputeRaisedId_eq_none parsedLogs h
  refine ⟨?_, ?_⟩
  · simp only [raiseDisputeResult, hfind, Option.getD_none, Prod.mk.injEq]
    exact ⟨by decide, trivial⟩
  · simp only [raiseDisputeResult, hfind, Option.getD_none]
    decide

/-- Witness for claim C10 at concrete inputs. -/
theorem raiseDispute_no_event_zero_id_witness :
    (∀ pl ∈ [Option.none,
       Option.some ({ name := "OfferCreated", disputeId := Option.none } :
         ParsedLog)], notRaisedLog pl) ∧
    (raiseDisputeResult
        [Option.none,
         Option.some { name := "OfferCreated", disputeId := Option.none }] 3 =
      ("0x0000000000000000000000000000000000000000000000000000000000000000",
        3) ∧
     (raiseDisputeResult
        [Option.none,
         Option.some { name := "OfferCreated", disputeId := Option.none }]
        3).1.length = 66) :=
  ⟨by decide, raiseDispute_no_event_zero_id _ 3 (by decide)⟩

end AgreementKit
